import Mathlib

/-!
Verification of the hierarchical resource access resolver
(`PageAccessController`) of the notion-mcp-server repository.

The definitions below are a shallow embedding of the TypeScript class
`PageAccessController` (multi-root variant).  JavaScript `string | null`
values are modelled as `Option String`, with the JavaScript truthiness
test on such a value is modelled as: the option is some and the string is non-empty.
Exceptions are modelled with `Except Unit`.  The remote HTTP client is
modelled as an abstract `Provider` of parent links; every provider call
made is counted, and the recursive remote walks are given an explicit
fuel parameter (`none` = the computation would not have finished within
that fuel).
-/

/-- The `parent` field of a retrieved page/block/database payload:
a page parent, a database parent, a block parent, or an
absent/other-typed parent (e.g. `workspace`), which the code treats
uniformly by falling through to `null`. -/
inductive ParentLink where
  | page (id : String)
  | database (id : String)
  | block (id : String)
  | other
deriving DecidableEq

/-- The remote metadata provider: the three `executeOperation` shapes used
by the controller (`retrieve-a-page`, `retrieve-a-block`,
`retrieve-a-database`).  `Except.error` models a thrown network error. -/
structure Provider where
  retrievePage : String → Except Unit ParentLink
  retrieveBlock : String → Except Unit ParentLink
  retrieveDatabase : String → Except Unit ParentLink

/-- An entry of `pageCache`: a nullable parent id plus the verdict. -/
structure CacheEntry where
  parentId : Option String
  isAllowed : Bool
deriving DecidableEq

/-- The `pageCache` map, modelled as an association list in insertion order
(mirroring a JavaScript `Map`). -/
abbrev Cache := List (String × CacheEntry)

/-- Lookup in the cache map. -/
def cacheGet : Cache → String → Option CacheEntry
  | [], _ => none
  | (k, v) :: rest, key => if k = key then some v else cacheGet rest key

/-- Insertion into the cache map: overwrite in place if the key exists,
else append. -/
def cacheSet : Cache → String → CacheEntry → Cache
  | [], key, v => [(key, v)]
  | (k, w) :: rest, key, v =>
    if k = key then (k, v) :: rest else (k, w) :: cacheSet rest key v

/-- Mutable state of a `PageAccessController` instance: the cache, plus a
count of provider calls made so far (the call counter used by the
idempotence test of the specification). -/
structure St where
  cache : Cache
  calls : Nat
deriving DecidableEq

/-- JavaScript `String.prototype.trim`, modelled on the character list. -/
def jsTrim (s : String) : String :=
  String.mk (((s.data.dropWhile Char.isWhitespace).reverse.dropWhile Char.isWhitespace).reverse)

/-- Split a character list at commas. -/
def splitCommaAux : List Char → List Char → List (List Char)
  | [], cur => [cur.reverse]
  | c :: rest, cur =>
    if c = ',' then cur.reverse :: splitCommaAux rest [] else splitCommaAux rest (c :: cur)

/-- Split at commas, trim each piece, drop empty pieces — how the
environment variables `NOTION_ROOT_PAGE_ID` / `NOTION_ROOT_PAGE_URL` are
tokenized. -/
def splitCommaTrim (s : String) : List String :=
  ((splitCommaAux s.data []).map (fun l => jsTrim (String.mk l))).filter (fun t => t != "")

/-- Drop every dash from the id and lower-case it — the `cleanId` of
`normalizePageId`. -/
def cleanIdOf (pageId : String) : List Char :=
  (pageId.data.filter (fun c => c != '-')).map Char.toLower

/-- Re-insert UUID dashes:
slice 0-8, dash, 8-12, dash, 12-16, dash, 16-20, dash, 20-end. -/
def rebuildId (clean : List Char) : String :=
  String.mk (clean.take 8) ++ "-" ++ String.mk ((clean.drop 8).take 4) ++ "-" ++
  String.mk ((clean.drop 12).take 4) ++ "-" ++ String.mk ((clean.drop 16).take 4) ++ "-" ++
  String.mk (clean.drop 20)

/-- Model of `normalizePageId`: remove all dashes, lower-case, require length 32
(this is the only validation the code performs), then re-insert dashes in
8-4-4-4-12 UUID layout.  `Except.error` models the thrown
`Invalid page ID format` error. -/
def normalizePageId (pageId : String) : Except Unit String :=
  if (cleanIdOf pageId).length ≠ 32 then .error ()
  else .ok (rebuildId (cleanIdOf pageId))

/-- Case-insensitive hexadecimal digit, as in the URL regex `[a-f0-9]` with
the `i` flag. -/
def isHexDigit (c : Char) : Bool :=
  (decide ('0' ≤ c) && decide (c ≤ '9')) || (decide ('a' ≤ c) && decide (c ≤ 'f')) ||
  (decide ('A' ≤ c) && decide (c ≤ 'F'))

/-- First alternative of the URL regex: 32 hex digits. -/
def matchesPlain32 (cs : List Char) : Bool :=
  cs.length == 32 && cs.all isHexDigit

/-- Second alternative of the URL regex: `8-4-4-4-12` hex digits with
dashes. -/
def matchesHyphenated (cs : List Char) : Bool :=
  cs.length == 36 &&
  ((cs.take 8).all isHexDigit) && (cs.get? 8 == some '-') &&
  (((cs.drop 9).take 4).all isHexDigit) && (cs.get? 13 == some '-') &&
  (((cs.drop 14).take 4).all isHexDigit) && (cs.get? 18 == some '-') &&
  (((cs.drop 19).take 4).all isHexDigit) && (cs.get? 23 == some '-') &&
  ((cs.drop 24).all isHexDigit)

/-- Model of `extractPageIdFromUrl`: the regex
`([a-f0-9]{32}|[a-f0-9]{8}-[a-f0-9]{4}-[a-f0-9]{4}-[a-f0-9]{4}-[a-f0-9]{12})$/i`
anchored at the end of the URL; on a match the captured id is passed to
`normalizePageId`.  `Except.error` models the thrown
`Invalid Notion page URL format` error. -/
def extractPageIdFromUrl (url : String) : Except Unit String :=
  if matchesPlain32 (url.data.drop (url.data.length - 32)) then
    normalizePageId (String.mk (url.data.drop (url.data.length - 32)))
  else if matchesHyphenated (url.data.drop (url.data.length - 36)) then
    normalizePageId (String.mk (url.data.drop (url.data.length - 36)))
  else .error ()

/-- Addition to the root-id set (insertion-ordered, deduplicating). -/
def setAdd (s : List String) (x : String) : List String :=
  if x ∈ s then s else s ++ [x]

/-- Constructor options: `pageIds?: string[]`, `pageUrls?: string[]`. -/
structure PageAccessControlOptions where
  pageIds : Option (List String)
  pageUrls : Option (List String)

/-- The two environment variables read as a fallback. -/
structure Env where
  rootPageId : Option String
  rootPageUrl : Option String

/-- The `options.pageIds` loop of `initializeRootPages`: each non-blank
entry is trimmed and normalized with NO try/catch — a normalization
failure propagates out of the whole construction. -/
def addPageIds : List String → List String → Except Unit (List String)
  | acc, [] => .ok acc
  | acc, pid :: rest =>
    if jsTrim pid ≠ "" then
      match normalizePageId (jsTrim pid) with
      | .error e => .error e
      | .ok nid => addPageIds (setAdd acc nid) rest
    else addPageIds acc rest

/-- The `options.pageUrls` loop of `initializeRootPages`: extraction
failures are caught, logged and skipped. -/
def addPageUrls : List String → List String → List String
  | acc, [] => acc
  | acc, url :: rest =>
    if jsTrim url ≠ "" then
      match extractPageIdFromUrl (jsTrim url) with
      | .error _ => addPageUrls acc rest
      | .ok nid => addPageUrls (setAdd acc nid) rest
    else addPageUrls acc rest

/-- The `envPageIds` loop: entries are already trimmed and filtered;
normalization is again uncaught. -/
def addEnvIds : List String → List String → Except Unit (List String)
  | acc, [] => .ok acc
  | acc, pid :: rest =>
    match normalizePageId pid with
    | .error e => .error e
    | .ok nid => addEnvIds (setAdd acc nid) rest

/-- The `envPageUrls` loop: extraction failures are caught, logged and
skipped. -/
def addEnvUrls : List String → List String → List String
  | acc, [] => acc
  | acc, url :: rest =>
    match extractPageIdFromUrl url with
    | .error _ => addEnvUrls acc rest
    | .ok nid => addEnvUrls (setAdd acc nid) rest

/-- Model of `initializeRootPages`: explicit ids, then explicit URLs; the
environment variables are consulted only if the explicit sources produced
an empty set.  Returns the root set `rootPageIds`. -/
def initializeRootPages (opts : PageAccessControlOptions) (env : Env) :
    Except Unit (List String) :=
  match addPageIds [] (opts.pageIds.getD []) with
  | .error e => .error e
  | .ok s1 =>
    if (addPageUrls s1 (opts.pageUrls.getD [])).isEmpty then
      match addEnvIds (addPageUrls s1 (opts.pageUrls.getD []))
          ((env.rootPageId.map splitCommaTrim).getD []) with
      | .error e => .error e
      | .ok s3 => .ok (addEnvUrls s3 ((env.rootPageUrl.map splitCommaTrim).getD []))
    else .ok (addPageUrls s1 (opts.pageUrls.getD []))

/-- Access control is enabled when the root set is non-empty. -/
def isEnabled (roots : List String) : Bool :=
  !roots.isEmpty

mutual

/-- Model of `resolveBlockToPage`: retrieve the block; page parent → return it,
block parent → recurse, database parent → delegate; otherwise (and on a
caught provider error) `null`.  The recursion in the source is unbounded;
the extra `Nat` is fuel, `none` meaning the run would not finish within
it.  Result pairs the parent with the number of provider calls made. -/
def resolveBlockToPage (p : Provider) : Nat → String → Option (Option String × Nat)
  | 0, _ => none
  | fuel + 1, blockId =>
    match p.retrieveBlock blockId with
    | .error _ => some (none, 1)
    | .ok (.page pid) => some (some pid, 1)
    | .ok (.block bid) =>
      match resolveBlockToPage p fuel bid with
      | none => none
      | some (r, n) => some (r, n + 1)
    | .ok (.database did) =>
      match getDatabaseParent p fuel did with
      | none => none
      | some (r, n) => some (r, n + 1)
    | .ok .other => some (none, 1)

/-- Model of `getDatabaseParent`: retrieve the database; page parent → return it,
block parent → resolve the block; otherwise (and on a caught provider
error) `null`. -/
def getDatabaseParent (p : Provider) : Nat → String → Option (Option String × Nat)
  | 0, _ => none
  | fuel + 1, databaseId =>
    match p.retrieveDatabase databaseId with
    | .error _ => some (none, 1)
    | .ok (.page pid) => some (some pid, 1)
    | .ok (.block bid) =>
      match resolveBlockToPage p fuel bid with
      | none => none
      | some (r, n) => some (r, n + 1)
    | .ok (.database _) => some (none, 1)
    | .ok .other => some (none, 1)

end

/-- Model of `getParentPageId`: retrieve the page (a provider error here is logged
and re-thrown, hence `Except.error`), then dispatch on the parent type. -/
def getParentPageId (p : Provider) (bf : Nat) (pageId : String) :
    Option (Except Unit (Option String) × Nat) :=
  match p.retrievePage pageId with
  | .error _ => some (.error (), 1)
  | .ok (.page pid) => some (.ok (some pid), 1)
  | .ok (.database did) =>
    match getDatabaseParent p bf did with
    | none => none
    | some (r, n) => some (.ok r, n + 1)
  | .ok (.block bid) =>
    match resolveBlockToPage p bf bid with
    | none => none
    | some (r, n) => some (.ok r, n + 1)
  | .ok .other => some (.ok none, 1)

/-- The value component of `getParentPageId`, independent of call
counting. -/
def parentOf (p : Provider) (bf : Nat) (id : String) : Option (Except Unit (Option String)) :=
  (getParentPageId p bf id).map Prod.fst

/-- Mark every visited id in the cache as allowed with a null parent. -/
def markAllowed : List String → Cache → Cache
  | [], c => c
  | id :: rest, c => markAllowed rest (cacheSet c id ⟨none, true⟩)

/-- The post-loop `visited.forEach`: cache every still-uncached visited id
as not allowed with a null parent. -/
def exitCache : List String → Cache → Cache
  | [], c => c
  | id :: rest, c =>
    exitCache rest (if (cacheGet c id).isSome then c else cacheSet c id ⟨none, false⟩)

/-- The `while (currentPageId && !visited.has(currentPageId))` loop of
`checkPageHierarchy`.  The first `Nat` is loop fuel (the loop is bounded
in the source only by the growth of `visited`); `bf` is the block-chain
fuel.  An empty-string current id is falsy in JavaScript and exits the
loop. -/
def checkHierarchyLoop (p : Provider) (roots : List String) (bf : Nat) :
    Nat → Option String → List String → Cache → Nat → Option (Bool × Cache × Nat)
  | 0, _, _, _, _ => none
  | lf + 1, curOpt, visited, cache, calls =>
    match curOpt with
    | none => some (false, exitCache visited cache, calls)
    | some cur =>
      if cur = "" then some (false, exitCache visited cache, calls)
      else if cur ∈ visited then some (false, exitCache visited cache, calls)
      else if cur ∈ roots then some (true, markAllowed (visited ++ [cur]) cache, calls)
      else
        match getParentPageId p bf cur with
        | none => none
        | some (.error _, n) => some (false, cacheSet cache cur ⟨none, false⟩, calls + n)
        | some (.ok none, n) =>
          some (false, exitCache (visited ++ [cur]) (cacheSet cache cur ⟨none, false⟩), calls + n)
        | some (.ok (some pid), n) =>
          if pid = "" then
            some (false, exitCache (visited ++ [cur]) (cacheSet cache cur ⟨some pid, false⟩),
              calls + n)
          else
            checkHierarchyLoop p roots bf lf (some pid) (visited ++ [cur])
              (cacheSet cache cur ⟨some pid, false⟩) (calls + n)

/-- Model of `checkPageHierarchy`: run the loop from `pageId` with an empty
visited set. -/
def checkPageHierarchy (p : Provider) (roots : List String) (lf bf : Nat) (pageId : String)
    (cache : Cache) (calls : Nat) : Option (Bool × Cache × Nat) :=
  checkHierarchyLoop p roots bf lf (some pageId) [] cache calls

/-- The block-probe tail of `findRootPageForResource`: try the resource as
a block and return its page if truthy, else `null`. -/
def findRootViaBlock (p : Provider) (bf : Nat) (resourceId : String) (base : Nat) :
    Option (Option String × Nat) :=
  match resolveBlockToPage p bf resourceId with
  | none => none
  | some (some pid, n) =>
    if pid = "" then some (none, base + n) else some (some pid, base + n)
  | some (none, n) => some (none, base + n)

/-- Model of `findRootPageForResource`: probe the id as a page (any successful
retrieval means it IS a page), then as a database, then as a block; the
first truthy result wins, else `null`.  All probe failures are swallowed. -/
def findRootPageForResource (p : Provider) (bf : Nat) (resourceId : String) :
    Option (Option String × Nat) :=
  match p.retrievePage resourceId with
  | .ok _ => some (some resourceId, 1)
  | .error _ =>
    match getDatabaseParent p bf resourceId with
    | none => none
    | some (some pid, n) =>
      if pid = "" then findRootViaBlock p bf resourceId (1 + n)
      else some (some pid, 1 + n)
    | some (none, n) => findRootViaBlock p bf resourceId (1 + n)

/-- Model of `isPageAllowed`: disabled → allow; normalize (may throw);
root → allow; cache hit → cached verdict; else probe the resource kind,
walk the hierarchy from the found page, and cache the result under the
normalized original id. -/
def isPageAllowed (p : Provider) (roots : List String) (lf bf : Nat) (resourceId : String)
    (st : St) : Option (Except Unit Bool × St) :=
  if isEnabled roots then
    match normalizePageId resourceId with
    | .error e => some (.error e, st)
    | .ok nid =>
      if nid ∈ roots then some (.ok true, st)
      else
        match cacheGet st.cache nid with
        | some entry => some (.ok entry.isAllowed, st)
        | none =>
          match findRootPageForResource p bf nid with
          | none => none
          | some (none, n) =>
            some (.ok false, ⟨cacheSet st.cache nid ⟨none, false⟩, st.calls + n⟩)
          | some (some actualPageId, n) =>
            if actualPageId = "" then
              some (.ok false, ⟨cacheSet st.cache nid ⟨none, false⟩, st.calls + n⟩)
            else
              match checkHierarchyLoop p roots bf lf (some actualPageId) [] st.cache
                  (st.calls + n) with
              | none => none
              | some (allowed, cache2, calls2) =>
                some (.ok allowed, ⟨cacheSet cache2 nid ⟨some actualPageId, allowed⟩, calls2⟩)
  else some (.ok true, st)

/-- The boolean/error outcome of `isPageAllowed`, discarding the state. -/
def resultOf (p : Provider) (roots : List String) (lf bf : Nat) (resourceId : String)
    (st : St) : Option (Except Unit Bool) :=
  (isPageAllowed p roots lf bf resourceId st).map Prod.fst

/-- Whether an `Except` result is a normal return. -/
def exceptIsOk : Except Unit Bool → Bool
  | .ok _ => true
  | .error _ => false

/-!  Spec-side predicates (formalizing the words of the specification, to
be compared with the behaviour of the embedded code). -/

/-- The syntactic shape every `normalizePageId` output has: 36 characters
with dashes exactly where the 8-4-4-4-12 layout puts them. -/
def normalizedShape (s : String) : Bool :=
  decide (s.data.length = 36 ∧ s.data.get? 8 = some '-' ∧ s.data.get? 13 = some '-' ∧
    s.data.get? 18 = some '-' ∧ s.data.get? 23 = some '-')

/-- Lowercase hexadecimal digit. -/
def isLowerHex (c : Char) : Bool :=
  (decide ('0' ≤ c) && decide (c ≤ '9')) || (decide ('a' ≤ c) && decide (c ≤ 'f'))

/-- Modelled from the spec: a canonical `ResourceId` — a 36-character
lowercase hyphenated UUID (8-4-4-4-12 hex groups). -/
def specCanonicalId (s : String) : Bool :=
  normalizedShape s && s.data.all (fun c => isLowerHex c || c = '-') &&
  ((s.data.filter (fun c => c == '-')).length == 4)

/-- Every id in the list has the output shape of the normalizer. -/
def allShape (l : List String) : Prop :=
  ∀ id, id ∈ l → normalizedShape id = true

/-- A parent chain as reported by the provider: consecutive elements are
linked by `getParentPageId`. -/
def chainSteps (p : Provider) (bf : Nat) : List String → Prop
  | [] => True
  | [_] => True
  | a :: b :: rest => parentOf p bf a = some (.ok (some b)) ∧ chainSteps p bf (b :: rest)

/-- Block-chain resolution terminates: some finite fuel completes the
run. -/
def blockResolutionTerminates (p : Provider) (b : String) : Prop :=
  ∃ n, (resolveBlockToPage p n b).isSome = true

/-!  Concrete scenarios used by the test-style theorems below. -/

/-- A canonical page id (the X of the block scenario in the spec). -/
def idA : String := "aaaaaaaa-aaaa-aaaa-aaaa-aaaaaaaaaaaa"

/-- A canonical block id (the B1 of the block scenario in the spec). -/
def idB : String := "bbbbbbbb-bbbb-bbbb-bbbb-bbbbbbbbbbbb"

/-- A canonical page id configured as root (the P1 of the spec). -/
def idC : String := "cccccccc-cccc-cccc-cccc-cccccccccccc"

/-- A canonical root id unrelated to the chains below. -/
def idR : String := "dddddddd-dddd-dddd-dddd-dddddddddddd"

/-- The canonical id embedded in `goodUrl`. -/
def idE : String := "eeeeeeee-eeee-eeee-eeee-eeeeeeeeeeee"

/-- A parent id, as a provider could report it: NOT in canonical form. -/
def badParent : String := "PARENT"

/-- A malformed raw page id. -/
def badId : String := "zz"

/-- 32 characters that are not hexadecimal. -/
def zs32 : String := "zzzzzzzzzzzzzzzzzzzzzzzzzzzzzzzz"

/-- What `normalizePageId` makes of `zs32`. -/
def zOut : String := "zzzzzzzz-zzzz-zzzz-zzzz-zzzzzzzzzzzz"

/-- A well-formed Notion URL carrying `idE`. -/
def goodUrl : String := "https://notion.so/eeeeeeeeeeeeeeeeeeeeeeeeeeeeeeee"

/-- A URL with no extractable page id. -/
def badUrl : String := "https://notion.so/xyz"

/-- The empty starting state. -/
def stEmpty : St := ⟨[], 0⟩

/-- Provider of the block scenario of the spec: the parent of page X is
block B1, the parent of block B1 is page P1; everything else fails. -/
def pC6 : Provider :=
  ⟨fun id => if id = idA then .ok (.block idB) else .error (),
   fun id => if id = idB then .ok (.page idC) else .error (),
   fun _ => .error ()⟩

/-- Provider with the page-parent cycle `A → B → A`. -/
def pC7 : Provider :=
  ⟨fun id => if id = idA then .ok (.page idB)
     else if id = idB then .ok (.page idA) else .error (),
   fun _ => .error (),
   fun _ => .error ()⟩

/-- Provider with the block-parent cycle `A → B → A`. -/
def pC8 : Provider :=
  ⟨fun _ => .error (),
   fun id => if id = idA then .ok (.block idB)
     else if id = idB then .ok (.block idA) else .error (),
   fun _ => .error ()⟩

/-- Provider reporting a non-canonical parent id for page `A`. -/
def pC5 : Provider :=
  ⟨fun id => if id = idA then .ok (.page badParent)
     else if id = badParent then .ok .other else .error (),
   fun _ => .error (),
   fun _ => .error ()⟩

/-- Provider with the simple page chain `A → C`, `C` top-level. -/
def pW : Provider :=
  ⟨fun id => if id = idA then .ok (.page idC)
     else if id = idC then .ok .other else .error (),
   fun _ => .error (),
   fun _ => .error ()⟩

/-- Provider where page `A` is top-level (no parent). -/
def pCE : Provider :=
  ⟨fun id => if id = idA then .ok .other else .error (),
   fun _ => .error (),
   fun _ => .error ()⟩

/-- First call of the block scenario: query X with root set P1. -/
def c6run1 : Option (Except Unit Bool × St) :=
  isPageAllowed pC6 [idC] 5 5 idA stEmpty

/-- State after the first call of the block scenario. -/
def c6st1 : St :=
  match c6run1 with
  | some (_, st) => st
  | none => stEmpty

/-- Second call of the block scenario: query B1 on the state left by the
first call. -/
def c6run2 : Option (Except Unit Bool × St) :=
  isPageAllowed pC6 [idC] 5 5 idB c6st1

/-- The cache after the second call of the block scenario. -/
def c6cache2 : Cache :=
  [(idA, ⟨some idA, true⟩), (idC, ⟨none, true⟩), (idB, ⟨some idC, true⟩)]

/-- Final state of the cycle scenario. -/
def stC7 : St :=
  ⟨[(idA, ⟨some idA, false⟩), (idB, ⟨some idA, false⟩)], 3⟩

/-- Run of the non-canonical-parent scenario with root set R. -/
def c5run : Option (Except Unit Bool × St) :=
  isPageAllowed pC5 [idR] 5 5 idA stEmpty

/-- Cache left by the non-canonical-parent scenario. -/
def c5cache : Cache :=
  match c5run with
  | some (_, st) => st.cache
  | none => []

/-!  Helper lemmas. -/

theorem cacheGet_cacheSet_self (c : Cache) (k : String) (v : CacheEntry) :
    cacheGet (cacheSet c k v) k = some v := by
  induction c with
  | nil => simp [cacheSet, cacheGet]
  | cons kv rest ih =>
    obtain ⟨k2, w⟩ := kv
    by_cases h : k2 = k
    · subst h; simp [cacheSet, cacheGet]
    · simp [cacheSet, cacheGet, h, ih]

theorem get?_sep (A R : List Char) (k : Nat) (hA : A.length = k) :
    (A ++ '-' :: R).get? k = some '-' := by
  rw [List.get?_append_right (by omega)]
  simp [hA]

theorem get?_skip (A R : List Char) (k n : Nat) (hA : A.length = n) (h : n < k) :
    (A ++ '-' :: R).get? k = R.get? (k - n - 1) := by
  rw [List.get?_append_right (by omega)]
  have h2 : k - A.length = (k - n - 1) + 1 := by omega
  rw [h2]
  rfl

theorem rebuildId_data (clean : List Char) :
    (rebuildId clean).data = clean.take 8 ++ '-' :: ((clean.drop 8).take 4 ++ '-' ::
      ((clean.drop 12).take 4 ++ '-' :: ((clean.drop 16).take 4 ++ '-' :: clean.drop 20))) := by
  simp [rebuildId, String.data_append, List.append_assoc]

theorem normalize_shape (s t : String) (h : normalizePageId s = .ok t) :
    t.data.length = 36 ∧ normalizedShape t = true := by
  unfold normalizePageId at h
  by_cases hl : (cleanIdOf s).length = 32
  · rw [if_neg (by omega)] at h
    injection h with h2
    subst h2
    have l8 : ((cleanIdOf s).take 8).length = 8 := by rw [List.length_take]; omega
    have l4a : (((cleanIdOf s).drop 8).take 4).length = 4 := by
      rw [List.length_take, List.length_drop]; omega
    have l4b : (((cleanIdOf s).drop 12).take 4).length = 4 := by
      rw [List.length_take, List.length_drop]; omega
    have l4c : (((cleanIdOf s).drop 16).take 4).length = 4 := by
      rw [List.length_take, List.length_drop]; omega
    have l12 : ((cleanIdOf s).drop 20).length = 12 := by rw [List.length_drop]; omega
    have hlen : (rebuildId (cleanIdOf s)).data.length = 36 := by
      rw [rebuildId_data]
      simp only [List.length_append, List.length_cons]
      omega
    refine ⟨hlen, ?_⟩
    have p8 : (rebuildId (cleanIdOf s)).data.get? 8 = some '-' := by
      rw [rebuildId_data]; exact get?_sep _ _ 8 l8
    have p13 : (rebuildId (cleanIdOf s)).data.get? 13 = some '-' := by
      rw [rebuildId_data, get?_skip _ _ 13 8 l8 (by omega)]
      exact get?_sep _ _ _ (by omega)
    have p18 : (rebuildId (cleanIdOf s)).data.get? 18 = some '-' := by
      rw [rebuildId_data, get?_skip _ _ 18 8 l8 (by omega),
        get?_skip _ _ (18 - 8 - 1) 4 l4a (by omega)]
      exact get?_sep _ _ _ (by omega)
    have p23 : (rebuildId (cleanIdOf s)).data.get? 23 = some '-' := by
      rw [rebuildId_data, get?_skip _ _ 23 8 l8 (by omega),
        get?_skip _ _ (23 - 8 - 1) 4 l4a (by omega),
        get?_skip _ _ (23 - 8 - 1 - 4 - 1) 4 l4b (by omega)]
      exact get?_sep _ _ _ (by omega)
    simp only [normalizedShape, decide_eq_true_eq]
    exact ⟨hlen, p8, p13, p18, p23⟩
  · rw [if_pos hl] at h
    cases h

theorem parentOf_some (p : Provider) (bf : Nat) (a : String)
    (r : Except Unit (Option String)) (h : parentOf p bf a = some r) :
    ∃ n, getParentPageId p bf a = some (r, n) := by
  unfold parentOf at h
  cases hg : getParentPageId p bf a with
  | none => rw [hg] at h; cases h
  | some v =>
    rw [hg] at h
    refine ⟨v.2, ?_⟩
    have h2 : v.1 = r := by simpa using h
    rw [← h2]

theorem retrievePage_ok_of_parentOf (p : Provider) (bf : Nat) (a : String)
    (r : Option String) (h : parentOf p bf a = some (.ok r)) :
    ∃ pl, p.retrievePage a = .ok pl := by
  cases hr : p.retrievePage a with
  | ok pl => exact ⟨pl, rfl⟩
  | error e =>
    unfold parentOf getParentPageId at h
    rw [hr] at h
    simp at h

theorem getLastD_mem_cons (rest : List String) : ∀ b, rest.getLastD b ∈ b :: rest := by
  induction rest with
  | nil => intro b; simp
  | cons c rest ih =>
    intro b
    rw [List.getLastD_cons]
    exact List.mem_cons_of_mem b (ih c)

theorem allShape_setAdd {l : List String} {x : String} (hl : allShape l)
    (hx : normalizedShape x = true) : allShape (setAdd l x) := by
  unfold setAdd
  by_cases h : x ∈ l
  · simpa [h] using hl
  · rw [if_neg h]
    intro y hy
    rcases List.mem_append.mp hy with h2 | h2
    · exact hl y h2
    · simp at h2; subst h2; exact hx

theorem addPageIds_shape : ∀ (ids acc out : List String), allShape acc →
    addPageIds acc ids = .ok out → allShape out := by
  intro ids
  induction ids with
  | nil =>
    intro acc out ha h
    unfold addPageIds at h
    injection h with h2
    subst h2
    exact ha
  | cons i ids ih =>
    intro acc out ha h
    unfold addPageIds at h
    by_cases ht : jsTrim i ≠ ""
    · rw [if_pos ht] at h
      cases hn : normalizePageId (jsTrim i) with
      | error e => rw [hn] at h; cases h
      | ok nid =>
        rw [hn] at h
        exact ih _ _ (allShape_setAdd ha (normalize_shape _ _ hn).2) h
    · rw [if_neg ht] at h
      exact ih _ _ ha h

theorem addEnvIds_shape : ∀ (ids acc out : List String), allShape acc →
    addEnvIds acc ids = .ok out → allShape out := by
  intro ids
  induction ids with
  | nil =>
    intro acc out ha h
    unfold addEnvIds at h
    injection h with h2
    subst h2
    exact ha
  | cons i ids ih =>
    intro acc out ha h
    unfold addEnvIds at h
    cases hn : normalizePageId i with
    | error e => rw [hn] at h; cases h
    | ok nid =>
      rw [hn] at h
      exact ih _ _ (allShape_setAdd ha (normalize_shape _ _ hn).2) h

theorem extract_ok_normalize (u t : String) (h : extractPageIdFromUrl u = .ok t) :
    ∃ s, normalizePageId s = .ok t := by
  unfold extractPageIdFromUrl at h
  split at h
  · exact ⟨_, h⟩
  · split at h
    · exact ⟨_, h⟩
    · cases h

theorem addPageUrls_cons (acc : List String) (u : String) (urls : List String) :
    addPageUrls acc (u :: urls) = (if jsTrim u ≠ "" then
      match extractPageIdFromUrl (jsTrim u) with
      | .error _ => addPageUrls acc urls
      | .ok nid => addPageUrls (setAdd acc nid) urls
    else addPageUrls acc urls) := rfl

theorem addEnvUrls_cons (acc : List String) (u : String) (urls : List String) :
    addEnvUrls acc (u :: urls) = (match extractPageIdFromUrl u with
      | .error _ => addEnvUrls acc urls
      | .ok nid => addEnvUrls (setAdd acc nid) urls) := rfl

theorem addPageUrls_shape : ∀ (urls acc : List String), allShape acc →
    allShape (addPageUrls acc urls) := by
  intro urls
  induction urls with
  | nil => intro acc ha; exact ha
  | cons u urls ih =>
    intro acc ha
    rw [addPageUrls_cons]
    split
    · split
      · exact ih _ ha
      · rename_i nid he
        obtain ⟨s0, hs0⟩ := extract_ok_normalize _ _ he
        exact ih _ (allShape_setAdd ha (normalize_shape _ _ hs0).2)
    · exact ih _ ha

theorem addEnvUrls_shape : ∀ (urls acc : List String), allShape acc →
    allShape (addEnvUrls acc urls) := by
  intro urls
  induction urls with
  | nil => intro acc ha; exact ha
  | cons u urls ih =>
    intro acc ha
    rw [addEnvUrls_cons]
    split
    · exact ih _ ha
    · rename_i nid he
      obtain ⟨s0, hs0⟩ := extract_ok_normalize _ _ he
      exact ih _ (allShape_setAdd ha (normalize_shape _ _ hs0).2)

theorem initializeRootPages_shape (opts : PageAccessControlOptions) (env : Env)
    (roots : List String) (h : initializeRootPages opts env = .ok roots) :
    allShape roots := by
  unfold initializeRootPages at h
  cases h1 : addPageIds [] (opts.pageIds.getD []) with
  | error e => rw [h1] at h; cases h
  | ok s1 =>
    rw [h1] at h
    dsimp only at h
    have hs1 : allShape s1 := addPageIds_shape _ _ _ (by intro y hy; cases hy) h1
    have hs2 : allShape (addPageUrls s1 (opts.pageUrls.getD [])) := addPageUrls_shape _ _ hs1
    by_cases he : (addPageUrls s1 (opts.pageUrls.getD [])).isEmpty = true
    · rw [if_pos he] at h
      cases h2 : addEnvIds (addPageUrls s1 (opts.pageUrls.getD []))
          ((env.rootPageId.map splitCommaTrim).getD []) with
      | error e => rw [h2] at h; cases h
      | ok s3 =>
        rw [h2] at h
        injection h with h3
        subst h3
        exact addEnvUrls_shape _ _ (addEnvIds_shape _ _ _ hs2 h2)
    · rw [if_neg he] at h
      injection h with h3
      subst h3
      exact hs2

theorem c8_loop : ∀ n, resolveBlockToPage pC8 n idA = none ∧
    resolveBlockToPage pC8 n idB = none := by
  intro n
  induction n with
  | zero => exact ⟨rfl, rfl⟩
  | succ n ih =>
    have hA : pC8.retrieveBlock idA = .ok (.block idB) := rfl
    have hB : pC8.retrieveBlock idB = .ok (.block idA) := rfl
    refine ⟨?_, ?_⟩
    · simp only [resolveBlockToPage, hA, ih.2]
    · simp only [resolveBlockToPage, hB, ih.1]

theorem checkHierarchyLoop_succ (p : Provider) (roots : List String) (bf lf : Nat)
    (cur : String) (visited : List String) (cache : Cache) (calls : Nat) :
    checkHierarchyLoop p roots bf (lf + 1) (some cur) visited cache calls =
    (if cur = "" then some (false, exitCache visited cache, calls)
     else if cur ∈ visited then some (false, exitCache visited cache, calls)
     else if cur ∈ roots then some (true, markAllowed (visited ++ [cur]) cache, calls)
     else
       match getParentPageId p bf cur with
       | none => none
       | some (.error _, n) => some (false, cacheSet cache cur ⟨none, false⟩, calls + n)
       | some (.ok none, n) =>
         some (false, exitCache (visited ++ [cur]) (cacheSet cache cur ⟨none, false⟩), calls + n)
       | some (.ok (some pid), n) =>
         if pid = "" then
           some (false, exitCache (visited ++ [cur]) (cacheSet cache cur ⟨some pid, false⟩),
             calls + n)
         else
           checkHierarchyLoop p roots bf lf (some pid) (visited ++ [cur])
             (cacheSet cache cur ⟨some pid, false⟩) (calls + n)) := rfl

theorem loop_hits_root (p : Provider) (roots : List String) (bf : Nat) :
    ∀ (rest : List String) (a : String) (visited : List String) (cache : Cache)
      (calls lf : Nat),
      chainSteps p bf (a :: rest) →
      rest.getLastD a ∈ roots →
      (∀ y, y ∈ a :: rest → y ∈ roots → y = rest.getLastD a) →
      (a :: rest).Nodup →
      (∀ y, y ∈ a :: rest → y ∉ visited) →
      (∀ y, y ∈ a :: rest → y ≠ "") →
      rest.length < lf →
      ∃ c2 k2, checkHierarchyLoop p roots bf lf (some a) visited cache calls =
        some (true, c2, k2) := by
  intro rest
  induction rest with
  | nil =>
    intro a visited cache calls lf _ hlast _ _ hvis hne hlf
    obtain ⟨l, rfl⟩ : ∃ l, lf = l + 1 := ⟨lf - 1, by omega⟩
    have ha1 : a ≠ "" := hne a (by simp)
    have ha2 : a ∉ visited := hvis a (by simp)
    have ha3 : a ∈ roots := by simpa using hlast
    refine ⟨markAllowed (visited ++ [a]) cache, calls, ?_⟩
    rw [checkHierarchyLoop_succ]
    simp [ha1, ha2, ha3]
  | cons b rest ih =>
    intro a visited cache calls lf hch hlast honly hnd hvis hne hlf
    obtain ⟨l, rfl⟩ : ∃ l, lf = l + 1 := ⟨lf - 1, by omega⟩
    have ha1 : a ≠ "" := hne a (by simp)
    have ha2 : a ∉ visited := hvis a (by simp)
    have hanotin : a ∉ b :: rest := (List.nodup_cons.mp hnd).1
    have ha3 : a ∉ roots := by
      intro hin
      have h4 := honly a (by simp) hin
      have h5 : (b :: rest).getLastD a ∈ b :: rest := by
        rw [List.getLastD_cons]
        exact getLastD_mem_cons rest b
      rw [← h4] at h5
      exact hanotin h5
    obtain ⟨hstep, hch2⟩ := hch
    obtain ⟨n, hg⟩ := parentOf_some p bf a _ hstep
    have hb1 : b ≠ "" := hne b (by simp)
    have key : checkHierarchyLoop p roots bf (l + 1) (some a) visited cache calls =
        checkHierarchyLoop p roots bf l (some b) (visited ++ [a])
          (cacheSet cache a ⟨some b, false⟩) (calls + n) := by
      rw [checkHierarchyLoop_succ]
      simp [ha1, ha2, ha3, hg, hb1]
    rw [key]
    refine ih b (visited ++ [a]) (cacheSet cache a ⟨some b, false⟩) (calls + n) l hch2
      ?_ ?_ ?_ ?_ ?_ ?_
    · rw [List.getLastD_cons] at hlast
      exact hlast
    · intro y hy hyr
      have h6 := honly y (List.mem_cons_of_mem a hy) hyr
      rw [List.getLastD_cons] at h6
      exact h6
    · exact (List.nodup_cons.mp hnd).2
    · intro y hy hmem
      rcases List.mem_append.mp hmem with h7 | h7
      · exact hvis y (List.mem_cons_of_mem a hy) h7
      · simp at h7
        subst h7
        exact hanotin hy
    · intro y hy
      exact hne y (List.mem_cons_of_mem a hy)
    · have h8 : (b :: rest).length < l + 1 := hlf
      simp at h8
      omega

theorem loop_null_parent (p : Provider) (roots : List String) (bf : Nat) :
    ∀ (rest : List String) (a : String) (visited : List String) (cache : Cache)
      (calls lf : Nat),
      chainSteps p bf (a :: rest) →
      parentOf p bf (rest.getLastD a) = some (.ok none) →
      (∀ y, y ∈ a :: rest → y ∉ roots) →
      (a :: rest).Nodup →
      (∀ y, y ∈ a :: rest → y ∉ visited) →
      (∀ y, y ∈ a :: rest → y ≠ "") →
      rest.length < lf →
      ∃ c2 k2, checkHierarchyLoop p roots bf lf (some a) visited cache calls =
        some (false, c2, k2) := by
  intro rest
  induction rest with
  | nil =>
    intro a visited cache calls lf _ hlastp hroots _ hvis hne hlf
    obtain ⟨l, rfl⟩ : ∃ l, lf = l + 1 := ⟨lf - 1, by omega⟩
    have ha1 : a ≠ "" := hne a (by simp)
    have ha2 : a ∉ visited := hvis a (by simp)
    have ha3 : a ∉ roots := hroots a (by simp)
    have hp : parentOf p bf a = some (.ok none) := by simpa using hlastp
    obtain ⟨n, hg⟩ := parentOf_some p bf a _ hp
    refine ⟨exitCache (visited ++ [a]) (cacheSet cache a ⟨none, false⟩), calls + n, ?_⟩
    rw [checkHierarchyLoop_succ]
    simp [ha1, ha2, ha3, hg]
  | cons b rest ih =>
    intro a visited cache calls lf hch hlastp hroots hnd hvis hne hlf
    obtain ⟨l, rfl⟩ : ∃ l, lf = l + 1 := ⟨lf - 1, by omega⟩
    have ha1 : a ≠ "" := hne a (by simp)
    have ha2 : a ∉ visited := hvis a (by simp)
    have hanotin : a ∉ b :: rest := (List.nodup_cons.mp hnd).1
    have ha3 : a ∉ roots := hroots a (by simp)
    obtain ⟨hstep, hch2⟩ := hch
    obtain ⟨n, hg⟩ := parentOf_some p bf a _ hstep
    have hb1 : b ≠ "" := hne b (by simp)
    have key : checkHierarchyLoop p roots bf (l + 1) (some a) visited cache calls =
        checkHierarchyLoop p roots bf l (some b) (visited ++ [a])
          (cacheSet cache a ⟨some b, false⟩) (calls + n) := by
      rw [checkHierarchyLoop_succ]
      simp [ha1, ha2, ha3, hg, hb1]
    rw [key]
    refine ih b (visited ++ [a]) (cacheSet cache a ⟨some b, false⟩) (calls + n) l hch2
      ?_ ?_ ?_ ?_ ?_ ?_
    · rw [List.getLastD_cons] at hlastp
      exact hlastp
    · intro y hy
      exact hroots y (List.mem_cons_of_mem a hy)
    · exact (List.nodup_cons.mp hnd).2
    · intro y hy hmem
      rcases List.mem_append.mp hmem with h7 | h7
      · exact hvis y (List.mem_cons_of_mem a hy) h7
      · simp at h7
        subst h7
        exact hanotin hy
    · intro y hy
      exact hne y (List.mem_cons_of_mem a hy)
    · have h8 : (b :: rest).length < l + 1 := hlf
      simp at h8
      omega

theorem addPageIds_cons (acc : List String) (i : String) (ids : List String) :
    addPageIds acc (i :: ids) = (if jsTrim i ≠ "" then
      match normalizePageId (jsTrim i) with
      | .error e => .error e
      | .ok nid => addPageIds (setAdd acc nid) ids
    else addPageIds acc ids) := rfl

theorem addEnvIds_cons (acc : List String) (i : String) (ids : List String) :
    addEnvIds acc (i :: ids) = (match normalizePageId i with
      | .error e => .error e
      | .ok nid => addEnvIds (setAdd acc nid) ids) := rfl

/-- C2: `isPageAllowed` returns `true` with the state (and hence the
provider-call counter) untouched whenever the root set is empty — for any
input string, malformed ones included — or whenever the normalized input
id is a member of the root set. -/
theorem isPageAllowed_disabled_or_root (p : Provider) (roots : List String) (lf bf : Nat)
    (x nx : String) (st : St) :
    (roots = [] → isPageAllowed p roots lf bf x st = some (.ok true, st)) ∧
    (normalizePageId x = .ok nx → nx ∈ roots →
      isPageAllowed p roots lf bf x st = some (.ok true, st)) := by
  constructor
  · intro h
    subst h
    simp [isPageAllowed, isEnabled]
  · intro hn hr
    have hen : isEnabled roots = true := by
      cases roots with
      | nil => cases hr
      | cons a l => simp [isEnabled]
    simp [isPageAllowed, hen, hn, hr]

/-- Witness for C2: with the empty root set even the malformed id `zz` is
allowed, and a configured root id is allowed, in both cases with zero
fuel and the state unchanged. -/
theorem isPageAllowed_disabled_or_root_wit :
    isPageAllowed pC7 [] 0 0 badId stEmpty = some (.ok true, stEmpty) ∧
    isPageAllowed pC6 [idA] 0 0 idA stEmpty = some (.ok true, stEmpty) :=
  ⟨(isPageAllowed_disabled_or_root pC7 [] 0 0 badId badId stEmpty).1 rfl,
   (isPageAllowed_disabled_or_root pC6 [idA] 0 0 idA idA stEmpty).2 rfl (by simp)⟩

/-- C4 counterexample: the 32-character non-hexadecimal input of 32 `z`s
is NOT rejected — `normalizePageId` accepts it and re-hyphenates it. -/
theorem normalizePageId_nonhex_cex :
    normalizePageId zs32 = .ok zOut ∧ zs32.data.all isHexDigit = false ∧
    zs32.data.length = 32 :=
  ⟨rfl, rfl, rfl⟩

/-- C4 amended: `normalizePageId` fails exactly when the de-hyphenated,
lower-cased remainder does not have length 32 (hexadecimal content is not
validated); on success the output is 36 characters with dashes at the
`8-4-4-4-12` offsets. -/
theorem normalizePageId_length_only (s t : String) :
    (normalizePageId s = .error () ↔ (cleanIdOf s).length ≠ 32) ∧
    (normalizePageId s = .ok t → (cleanIdOf s).length = 32 ∧ t.data.length = 36 ∧
      normalizedShape t = true) := by
  constructor
  · constructor
    · intro h
      by_contra hl
      unfold normalizePageId at h
      rw [if_neg (by omega)] at h
      cases h
    · intro hl
      unfold normalizePageId
      rw [if_pos hl]
  · intro h
    have hshape := normalize_shape s t h
    refine ⟨?_, hshape.1, hshape.2⟩
    by_cases hl : (cleanIdOf s).length = 32
    · exact hl
    · unfold normalizePageId at h
      rw [if_pos (by omega)] at h
      cases h

/-- Witness for C4 amended: `zz` is rejected for its length, and the
accepted 32-`z` input yields a 36-character dashed output. -/
theorem normalizePageId_length_only_wit :
    (cleanIdOf badId).length ≠ 32 ∧ normalizedShape zOut = true :=
  ⟨(normalizePageId_length_only badId badId).1.mp rfl,
   ((normalizePageId_length_only zs32 zOut).2 rfl).2.2⟩

/-- C3 counterexample: one malformed raw id (`zz`) makes the whole root-set
construction throw, although a perfectly well-formed URL entry was also
configured — the faulty entry DOES abort construction and disables the
rest of the root set. -/
theorem initializeRootPages_abort_cex :
    initializeRootPages ⟨some [badId], some [goodUrl]⟩ ⟨none, none⟩ = .error () ∧
    extractPageIdFromUrl goodUrl = .ok idE :=
  ⟨rfl, rfl⟩

/-- C3 amended: malformed URL entries (explicit or environment-sourced)
are skipped and construction continues, but a malformed raw id — explicit
or environment-sourced — throws and aborts construction. -/
theorem rootInit_url_skip_id_abort (acc : List String) (u i : String)
    (us ids : List String) :
    (jsTrim u ≠ "" → extractPageIdFromUrl (jsTrim u) = .error () →
      addPageUrls acc (u :: us) = addPageUrls acc us) ∧
    (jsTrim i ≠ "" → normalizePageId (jsTrim i) = .error () →
      addPageIds acc (i :: ids) = .error ()) ∧
    (normalizePageId i = .error () → addEnvIds acc (i :: ids) = .error ()) := by
  refine ⟨?_, ?_, ?_⟩
  · intro h1 h2
    rw [addPageUrls_cons, if_pos h1, h2]
  · intro h1 h2
    rw [addPageIds_cons, if_pos h1, h2]
  · intro h1
    rw [addEnvIds_cons, h1]

/-- Witness for C3 amended: a bad URL is skipped while the rest of the
list is still processed; a bad raw id aborts, both from options and from
the environment. -/
theorem rootInit_url_skip_id_abort_wit :
    addPageUrls [] [badUrl, goodUrl] = addPageUrls [] [goodUrl] ∧
    addPageIds [] [badId] = .error () ∧ addEnvIds [] [badId] = .error () :=
  ⟨(rootInit_url_skip_id_abort [] badUrl badId [goodUrl] []).1 (by decide) rfl,
   (rootInit_url_skip_id_abort [] badUrl badId [goodUrl] []).2.1 (by decide) rfl,
   (rootInit_url_skip_id_abort [] badUrl badId [goodUrl] []).2.2 rfl⟩

/-- C7: against the provider whose page-parent relation is the cycle
A to B to A (root set R not on the cycle), the query for A
terminates — any loop fuel of at least 3 reaches the same final state —
and returns `false`: the visited set stops the walk when `A` is seen
again. -/
theorem isPageAllowed_cycle_false :
    ∀ (k bf : Nat), isPageAllowed pC7 [idR] (k + 3) bf idA stEmpty =
      some (.ok false, stC7) :=
  fun _ _ => rfl

/-- C8 counterexample: on the cyclic block chain `A → B → A` the
block-chain resolution `resolveBlockToPage` does NOT terminate: no finite
fuel completes it, because the code imposes no maximum hop count. -/
theorem resolveBlockToPage_cycle_diverges : ¬ blockResolutionTerminates pC8 idA := by
  rintro ⟨n, hn⟩
  rw [(c8_loop n).1] at hn
  cases hn

/-- C8 amended: `resolveBlockToPage` imposes no maximum hop count — on a
cyclic block chain every fuel bound is exhausted (the recursion is
unbounded) — and it terminates only when the block chain itself reaches a
page (or database/none/error) in finitely many hops, e.g. in one provider
call when the parent of the block is directly a page. -/
theorem resolveBlockToPage_unbounded :
    (∀ n, resolveBlockToPage pC8 n idA = none) ∧
    (∀ (p : Provider) (b pg : String), p.retrieveBlock b = .ok (.page pg) →
      resolveBlockToPage p 1 b = some (some pg, 1)) := by
  constructor
  · intro n
    exact (c8_loop n).1
  · intro p b pg h
    show (match p.retrieveBlock b with
      | .error _ => some (none, 1)
      | .ok (.page pid) => some (some pid, 1)
      | .ok (.block bid) =>
        match resolveBlockToPage p 0 bid with
        | none => none
        | some (r, n) => some (r, n + 1)
      | .ok (.database did) =>
        match getDatabaseParent p 0 did with
        | none => none
        | some (r, n) => some (r, n + 1)
      | .ok .other => some (none, 1)) = some (some pg, 1)
    rw [h]

/-- Witness for C8 amended: fuel 5 is exhausted on the cycle, while the
one-hop block chain of the block scenario resolves with fuel 1. -/
theorem resolveBlockToPage_unbounded_wit :
    resolveBlockToPage pC8 5 idA = none ∧
    resolveBlockToPage pC6 1 idB = some (some idC, 1) :=
  ⟨resolveBlockToPage_unbounded.1 5,
   resolveBlockToPage_unbounded.2 pC6 idB idC rfl⟩

/-- C6 counterexample: in the block scenario of the spec (root set P1,
page X has parent block B1, block B1 has parent page P1), after
querying X the block id B1 has NO cache entry, and the
subsequent query for B1 performs three additional provider calls
(the counter goes from 3 to 6) instead of answering from the cache with
zero calls. -/
theorem blockScenario_not_cached_cex :
    cacheGet c6st1.cache idB = none ∧ c6st1.calls = 3 ∧
    c6run2 = some (.ok true, ⟨c6cache2, 6⟩) :=
  ⟨rfl, rfl, rfl⟩

/-- C6 amended: `isPageAllowed(X)` returns `true`, and immediately
afterwards the query for B1 also returns `true` — but not from the
cache: the walker caches only the page ids X and P1, so B1 is
re-resolved with three additional provider calls. -/
theorem blockScenario_second_call_calls :
    c6run1 = some (.ok true, ⟨[(idA, ⟨some idA, true⟩), (idC, ⟨none, true⟩)], 3⟩) ∧
    c6run2 = some (.ok true, ⟨c6cache2, 6⟩) ∧ cacheGet c6st1.cache idB = none :=
  ⟨rfl, rfl, rfl⟩

/-- C1 counterexample: with an empty root set, the id `A` whose reported
parent chain terminates at a `null` parent without ever hitting a root
(there are no roots) gets the answer `true`, not `false` — access
control is disabled, contradicting the claim as stated. -/
theorem isPageAllowed_chain_cex :
    parentOf pCE 5 idA = some (.ok none) ∧
    isPageAllowed pCE [] 5 5 idA stEmpty = some (.ok true, stEmpty) :=
  ⟨rfl, rfl⟩

/-- C5 counterexample: the hierarchy walker stores the provider-reported
parent id verbatim: after resolving `A` whose reported parent is the
non-canonical string `PARENT`, the cache contains the key `PARENT`,
which is not a canonical 36-character lowercase hyphenated UUID. -/
theorem cacheKey_noncanonical_cex :
    c5run = some (.ok false, ⟨[(idA, ⟨some idA, false⟩), (badParent, ⟨none, false⟩)], 3⟩) ∧
    cacheGet c5cache badParent = some ⟨none, false⟩ ∧
    specCanonicalId badParent = false ∧ normalizedShape badParent = false :=
  ⟨rfl, rfl, rfl, rfl⟩

/-- C5 amended: every output of the normalizer — hence every id entering
the root set — is a 36-character string with dashes at the `8-4-4-4-12`
offsets; but parent ids returned by the provider are stored by the
hierarchy walker verbatim, so cache keys written while climbing carry no
such guarantee. -/
theorem rootSet_normalized_shape (opts : PageAccessControlOptions) (env : Env)
    (roots : List String) (s t : String) :
    (normalizePageId s = .ok t → normalizedShape t = true) ∧
    (initializeRootPages opts env = .ok roots → allShape roots) := by
  constructor
  · intro h
    exact (normalize_shape s t h).2
  · intro h
    exact initializeRootPages_shape opts env roots h

/-- Witness for C5 amended: the normalizer output for the 32-`z` input has
the dashed shape, and so does the single root id built from options. -/
theorem rootSet_normalized_shape_wit :
    normalizedShape zOut = true ∧ normalizedShape idA = true :=
  ⟨(rootSet_normalized_shape ⟨some [idA], none⟩ ⟨none, none⟩ [idA] zs32 zOut).1 rfl,
   (rootSet_normalized_shape ⟨some [idA], none⟩ ⟨none, none⟩ [idA] zs32 zOut).2 rfl idA
     (by simp)⟩

/-- C10: for every normalizable input id, a completed `isPageAllowed` run
never surfaces a provider failure: whatever the provider does, the result
is a normal boolean (`Except.ok`); the only error the function itself can
raise is the invalid-identifier error from normalization. -/
theorem isPageAllowed_ok_of_normalized (p : Provider) (roots : List String)
    (lf bf : Nat) (x nx : String) (st : St) (pr : Except Unit Bool × St)
    (hn : normalizePageId x = .ok nx)
    (h : isPageAllowed p roots lf bf x st = some pr) :
    exceptIsOk pr.1 = true := by
  unfold isPageAllowed at h
  split at h
  · split at h
    · rename_i e heq
      rw [hn] at heq
      cases heq
    · rename_i nid heq
      split at h
      · cases h
        rfl
      · split at h
        · cases h
          rfl
        · split at h
          · cases h
          · cases h
            rfl
          · split at h
            · cases h
              rfl
            · split at h
              · cases h
              · cases h
                rfl
  · cases h
    rfl

/-- Witness for C10: the chain scenario completes with a normal `true`. -/
theorem isPageAllowed_ok_of_normalized_wit :
    exceptIsOk ((Except.ok true : Except Unit Bool),
      (⟨[(idA, ⟨some idA, true⟩), (idC, ⟨none, true⟩)], 2⟩ : St)).1 = true :=
  isPageAllowed_ok_of_normalized pW [idC] 5 5 idA idA stEmpty
    ((Except.ok true : Except Unit Bool),
      (⟨[(idA, ⟨some idA, true⟩), (idC, ⟨none, true⟩)], 2⟩ : St)) rfl rfl

theorem isPageAllowed_post (p : Provider) (roots : List String) (lf bf : Nat)
    (x : String) (st : St) (b : Bool) (st2 : St)
    (h : isPageAllowed p roots lf bf x st = some (.ok b, st2)) :
    (isEnabled roots = false ∧ b = true ∧ st2 = st) ∨
    (isEnabled roots = true ∧ ∃ nid, normalizePageId x = .ok nid ∧
      ((nid ∈ roots ∧ b = true ∧ st2 = st) ∨
       (nid ∉ roots ∧ ∃ e, cacheGet st2.cache nid = some e ∧ e.isAllowed = b))) := by
  unfold isPageAllowed at h
  split at h
  · rename_i hen
    right
    refine ⟨hen, ?_⟩
    split at h
    · simp at h
    · rename_i nid heq
      refine ⟨nid, heq, ?_⟩
      split at h
      · rename_i hr
        simp only [Option.some.injEq, Prod.mk.injEq, Except.ok.injEq] at h
        exact Or.inl ⟨hr, h.1.symm, h.2.symm⟩
      · rename_i hr
        refine Or.inr ⟨hr, ?_⟩
        split at h
        · rename_i entry hcg
          simp only [Option.some.injEq, Prod.mk.injEq, Except.ok.injEq] at h
          obtain ⟨h1, h2⟩ := h
          exact ⟨entry, by rw [← h2]; exact hcg, h1⟩
        · rename_i hcg
          split at h
          · simp at h
          · rename_i n hf
            simp only [Option.some.injEq, Prod.mk.injEq, Except.ok.injEq] at h
            obtain ⟨h1, h2⟩ := h
            refine ⟨⟨none, false⟩, ?_, h1⟩
            rw [← h2]
            exact cacheGet_cacheSet_self _ _ _
          · rename_i actualPageId n hf
            split at h
            · rename_i ha
              simp only [Option.some.injEq, Prod.mk.injEq, Except.ok.injEq] at h
              obtain ⟨h1, h2⟩ := h
              refine ⟨⟨none, false⟩, ?_, h1⟩
              rw [← h2]
              exact cacheGet_cacheSet_self _ _ _
            · rename_i ha
              split at h
              · simp at h
              · rename_i allowed c2 k2 hloop
                simp only [Option.some.injEq, Prod.mk.injEq, Except.ok.injEq] at h
                obtain ⟨h1, h2⟩ := h
                refine ⟨⟨some actualPageId, allowed⟩, ?_, h1⟩
                rw [← h2]
                exact cacheGet_cacheSet_self _ _ _
  · rename_i hen
    left
    simp only [Option.some.injEq, Prod.mk.injEq, Except.ok.injEq] at h
    refine ⟨?_, h.1.symm, h.2.symm⟩
    simpa using hen

/-- C9: once `isPageAllowed(x)` has completed with a boolean, every
subsequent call with the same id — with any fuel, and no intervening
`clearCache` — returns the same boolean and leaves the state (cache and
provider-call counter) untouched: in the enabled non-root case the value
is read verbatim from the cache entry written by the first call. -/
theorem isPageAllowed_idempotent (p : Provider) (roots : List String)
    (lf bf lf2 bf2 : Nat) (x : String) (st : St) (b : Bool) (st2 : St)
    (h : isPageAllowed p roots lf bf x st = some (.ok b, st2)) :
    isPageAllowed p roots lf2 bf2 x st2 = some (.ok b, st2) := by
  rcases isPageAllowed_post p roots lf bf x st b st2 h with
    ⟨he, hb, hst⟩ | ⟨hen, nid, hnx, hcase⟩
  · subst hb
    simp [isPageAllowed, he]
  · rcases hcase with ⟨hr, hb, hst⟩ | ⟨hr, e, hce, hbe⟩
    · subst hb
      subst hst
      simp [isPageAllowed, hen, hnx, hr]
    · subst hbe
      simp [isPageAllowed, hen, hnx, hr, hce]

/-- Witness for C9: re-running the chain scenario on its own final state
returns the same `true` with zero fuel and the state unchanged. -/
theorem isPageAllowed_idempotent_wit :
    isPageAllowed pW [idC] 0 0 idA
      ⟨[(idA, ⟨some idA, true⟩), (idC, ⟨none, true⟩)], 2⟩ =
    some (.ok true, ⟨[(idA, ⟨some idA, true⟩), (idC, ⟨none, true⟩)], 2⟩) :=
  isPageAllowed_idempotent pW [idC] 5 5 0 0 idA stEmpty true
    ⟨[(idA, ⟨some idA, true⟩), (idC, ⟨none, true⟩)], 2⟩ rfl

/-- C1 amended: start from a state with no cache entry for the normalized
id.  If the reported parent chain of the id (minimal form: no repeated ids, no
root before the end) reaches a member of the root set after finitely many
hops, `isPageAllowed` returns `true`; if the chain reaches a `null`
parent without ever hitting a root, `isPageAllowed` returns `false`
PROVIDED the root set is non-empty — with an empty root set access
control is disabled and the result is `true` for every id. -/
theorem isPageAllowed_chain_correct (p : Provider) (roots : List String) (lf bf : Nat)
    (x nx : String) (rest : List String) (st : St)
    (hn : normalizePageId x = .ok nx)
    (hc : cacheGet st.cache nx = none)
    (hch : chainSteps p bf (nx :: rest))
    (hnd : (nx :: rest).Nodup)
    (hne : ∀ y, y ∈ nx :: rest → y ≠ "")
    (hlf : rest.length < lf) :
    ((rest.getLastD nx ∈ roots ∧
        (∀ y, y ∈ nx :: rest → y ∈ roots → y = rest.getLastD nx)) →
      resultOf p roots lf bf x st = some (.ok true)) ∧
    ((roots ≠ [] ∧ parentOf p bf (rest.getLastD nx) = some (.ok none) ∧
        (∀ y, y ∈ nx :: rest → y ∉ roots)) →
      resultOf p roots lf bf x st = some (.ok false)) := by
  have hnxne : nx ≠ "" := hne nx (by simp)
  constructor
  · rintro ⟨hlast, honly⟩
    have hroots_ne : roots ≠ [] := by
      intro hempty
      subst hempty
      exact List.not_mem_nil _ hlast
    have hen : isEnabled roots = true := by
      cases roots with
      | nil => exact absurd rfl hroots_ne
      | cons a l => simp [isEnabled]
    by_cases hr : nx ∈ roots
    · simp [resultOf, isPageAllowed, hen, hn, hr]
    · cases rest with
      | nil => exact absurd (by simpa using hlast) hr
      | cons hd rest2 =>
        obtain ⟨hstep, hch2⟩ := hch
        obtain ⟨pl, hpl⟩ := retrievePage_ok_of_parentOf p bf nx _ hstep
        have hprobe : findRootPageForResource p bf nx = some (some nx, 1) := by
          unfold findRootPageForResource
          rw [hpl]
        obtain ⟨c2, k2, hloop⟩ := loop_hits_root p roots bf (hd :: rest2) nx [] st.cache
          (st.calls + 1) lf ⟨hstep, hch2⟩ hlast honly hnd
          (by intro y hy hmem; cases hmem) hne hlf
        simp [resultOf, isPageAllowed, hen, hn, hr, hc, hprobe, hnxne, hloop]
  · rintro ⟨hroots_ne, hlastp, hall⟩
    have hen : isEnabled roots = true := by
      cases roots with
      | nil => exact absurd rfl hroots_ne
      | cons a l => simp [isEnabled]
    have hr : nx ∉ roots := hall nx (by simp)
    have hpl2 : ∃ pl, p.retrievePage nx = .ok pl := by
      cases rest with
      | nil => exact retrievePage_ok_of_parentOf p bf nx _ (by simpa using hlastp)
      | cons hd rest2 => exact retrievePage_ok_of_parentOf p bf nx _ hch.1
    obtain ⟨pl, hpl⟩ := hpl2
    have hprobe : findRootPageForResource p bf nx = some (some nx, 1) := by
      unfold findRootPageForResource
      rw [hpl]
    obtain ⟨c2, k2, hloop⟩ := loop_null_parent p roots bf rest nx [] st.cache
      (st.calls + 1) lf hch hlastp hall hnd (by intro y hy hmem; cases hmem) hne hlf
    simp [resultOf, isPageAllowed, hen, hn, hr, hc, hprobe, hnxne, hloop]

/-- Witness for C1 amended: the chain `A → C` with `C` top-level.  With
root set C the chain hits the root and A is allowed; with root set
R the chain dies at the null parent of C and A is denied. -/
theorem isPageAllowed_chain_correct_wit :
    resultOf pW [idC] 5 5 idA stEmpty = some (.ok true) ∧
    resultOf pW [idR] 5 5 idA stEmpty = some (.ok false) :=
  ⟨(isPageAllowed_chain_correct pW [idC] 5 5 idA idA [idC] stEmpty rfl rfl
      ⟨rfl, trivial⟩ (by decide) (by decide) (by decide)).1 ⟨by decide, by decide⟩,
   (isPageAllowed_chain_correct pW [idR] 5 5 idA idA [idC] stEmpty rfl rfl
      ⟨rfl, trivial⟩ (by decide) (by decide) (by decide)).2 ⟨by decide, rfl, by decide⟩⟩
